import Mathlib

/-!
Verification of the BUSCO-tracker batch-coordination scripts.

The Python sources under `scripts/` are embedded shallowly: a parsed TSV file
is a list of lines, a `csv.DictReader` row is an association list from the
file's fieldnames to optional values, and each script's `main` becomes a pure
function over that state.  Sets that Python keeps as `set` become `Finset`,
and `sorted(...)` becomes `Finset.sort (· ≤ ·)` over the string order.
-/

set_option linter.unusedVariables false

namespace BuscoTracker

/-- A parsed tab-separated file: one list of fields per physical line (an
empty line parses to `[]`). -/
abbrev Tsv := List (List String)

/-- A `csv.DictReader` row: the file's fieldnames paired with this line's
values; a value is `none` when the line had fewer fields than the header
(Python pads with `None`). -/
abbrev Row := List (String × Option String)

/-- Pair header fields with a data line's values, padding missing values with
`none`, as `dict(zip(fieldnames, row))` with `restval=None` does.  Values
beyond the header are dropped (Python files them under the non-string restkey,
which no string-keyed lookup reaches). -/
def padZip : List String → List String → Row
  | [], _ => []
  | h :: hs, [] => (h, none) :: padZip hs []
  | h :: hs, v :: vs => (h, some v) :: padZip hs vs

/-- Look a column up in a row, `none` when the key is absent.  Headers written
by this program have pairwise distinct column names, so first-match lookup
coincides with Python's dict. -/
def lookupCol : Row → String → Option (Option String)
  | [], _ => none
  | (k, v) :: rest, c => if k = c then some v else lookupCol rest c

/-- `row.get(c)`: the value stored at column `c`, collapsing "key absent" and
"value None" to `none`. -/
def getVal (r : Row) (c : String) : Option String :=
  (lookupCol r c).join

/-- The rows a `csv.DictReader` yields for a file: fieldnames from the first
line, one dict per later line, empty lines skipped. -/
def dictRows : Tsv → List Row
  | [] => []
  | hdr :: rest => (rest.filter (fun l => !l.isEmpty)).map (padZip hdr)

/-- Python's `str.strip()`, executed on the character list so that concrete
instances evaluate inside the kernel. -/
def pyStrip (s : String) : String :=
  ⟨((s.data.dropWhile Char.isWhitespace).reverse.dropWhile
      Char.isWhitespace).reverse⟩

/-- `utils.BUSCO_HEADER`. -/
def BUSCO_HEADER : List String :=
  ["annotation_id", "lineage", "busco_count", "complete",
   "single", "duplicated", "fragmented", "missing"]

/-- `utils.LOG_HEADER`. -/
def LOG_HEADER : List String := ["annotation_id", "run_at", "result", "step"]

/-- Modelled from the spec: `aggregate_results.py` imports `ERROR_LOG_HEADER`
from `utils`, which the sources at hand do not define.  Spec section 6 gives
the outcome log's variant-B schema `(id, attempted_at, result, step)`, i.e.
`LOG_HEADER`. -/
def ERROR_LOG_HEADER : List String := LOG_HEADER

/-- `utils.load_ids`: the set of values of one column of a TSV file; the empty
set when the file is missing (`none`).  The first line's first field decides
between the header (`csv.DictReader`) and the headerless (`csv.reader`)
reading. -/
def load_ids (file : Option Tsv) (column : String) : Finset String :=
  match file with
  | none => ∅
  | some [] => ∅
  | some (first :: rest) =>
    if pyStrip (first.headD "") = column then
      ((dictRows (first :: rest)).filterMap (fun r =>
        match getVal r column with
        | some v => if v = "" then none else some v
        | none => none)).toFinset
    else
      ((first :: rest).filterMap (fun row =>
        let v := pyStrip (row.headD "")
        if v = "" then none else some v)).toFinset

/-- `utils.load_failed_ids`: the ids whose `result` column equals `"fail"` in
a log TSV (read with a header); empty when the file is missing. -/
def load_failed_ids (file : Option Tsv) : Finset String :=
  match file with
  | none => ∅
  | some f =>
    ((dictRows f).filterMap (fun r =>
      match getVal r "result", getVal r "annotation_id" with
      | some res, some a => if res = "fail" ∧ a ≠ "" then some a else none
      | _, _ => none)).toFinset

/-- Modelled from the spec: `build_matrix.py` imports `compute_pending_ids`
from `utils`, which the sources at hand do not define.  Spec section 4.1:
`never_attempted = sort(A − S − E)`, `previously_failed = sort(E − S)`,
`pending = never_attempted ++ previously_failed`, sorted on the identifier's
natural string ordering. -/
def compute_pending_ids (all_ids success_ids error_ids : Finset String) :
    List String :=
  ((all_ids \ success_ids) \ error_ids).sort (· ≤ ·) ++
    (error_ids \ success_ids).sort (· ≤ ·)

/-- `to_process` at `build_matrix.py` line 88: the number of pending items
processed this trigger when a per-job budget `b` is set. -/
def eligibleCount (pendingCount maxChunks b : Nat) : Nat :=
  min (maxChunks * b) pendingCount

/-- `build_matrix.py` lines 81–95: the number of matrix chunks.  Python's
`if args.max_per_job:` treats an absent and a zero budget alike as unset. -/
def computeChunks (pendingCount maxChunks : Nat) (maxPerJob : Option Nat) :
    Nat :=
  if pendingCount = 0 then 0
  else
    match maxPerJob with
    | some b =>
      if b = 0 then min maxChunks pendingCount
      else min maxChunks ((eligibleCount pendingCount maxChunks b + b - 1) / b)
    | none => min maxChunks pendingCount

/-- Outcome of `build_matrix.py`'s `main`: a fatal exit code, or the three
emitted outputs. -/
inductive MatrixResult where
  | fatal (code : Nat)
  | outputs (matrix : List Nat) (chunkCount pendingCount : Nat)
  deriving DecidableEq

/-- `build_matrix.py` `main` (lines 56–101). -/
def buildMatrix (catalogFile buscoFile errorFile : Option Tsv)
    (maxChunks : Nat) (maxPerJob : Option Nat) : MatrixResult :=
  let all_ids := load_ids catalogFile "annotation_id"
  if all_ids = ∅ then
    match catalogFile with
    | none => .fatal 1
    | some _ => .outputs [] 0 0
  else
    let success_ids := load_ids buscoFile "annotation_id"
    let error_ids := load_ids errorFile "annotation_id"
    let pending_ids := compute_pending_ids all_ids success_ids error_ids
    let n_chunks := computeChunks pending_ids.length maxChunks maxPerJob
    .outputs (List.range n_chunks) n_chunks pending_ids.length

/-- Python's extended slice `l[k::N]` (for `N ≥ 1`): the elements whose index
is `k, k+N, k+2N, …`. -/
def strideSlice {α : Type} (l : List α) (k N : Nat) : List α :=
  (l.enum.filter (fun p =>
    decide (k ≤ p.1) && decide ((p.1 - k) % N = 0))).map Prod.snd

/-- `run_busco_batch.py` lines 70–75: the pending ids one batch job works
from.  `annIds` is the catalog's id set (`load_annotations(...).keys()`). -/
def batchPendingIds (annIds : Finset String) (logFile : Option Tsv)
    (retryFailed : Bool) : List String :=
  if retryFailed then (load_failed_ids logFile).sort (· ≤ ·)
  else (annIds \ load_ids logFile "annotation_id").sort (· ≤ ·)

/-- How one child invocation of `run_busco_analysis.py` ends, as the batch
script observes it: a process exit code, or an exception raised while
launching it. -/
inductive ItemOutcome where
  | exited (code : Int)
  | raised
  deriving DecidableEq

/-- What one batch run did. -/
structure BatchRun where
  processed : List String
  succeeded : Nat
  failed : Nat
  fragmentsWritten : List (String × Tsv)
  exitCode : Nat
  deriving DecidableEq

/-- The body of the per-item loop of `run_busco_batch.py` (lines 89–125): a
zero exit counts a success; a non-zero exit counts a failure (the child wrote
its own log fragment before exiting); an exception raised while launching
counts a failure and writes the fallback `unexpected_error` log fragment. -/
def batchStep (outcome : String → ItemOutcome) (now : String → String)
    (acc : BatchRun) (i : String) : BatchRun :=
  match outcome i with
  | .exited code =>
    if code = 0 then
      { acc with processed := acc.processed ++ [i],
                 succeeded := acc.succeeded + 1 }
    else
      { acc with processed := acc.processed ++ [i],
                 failed := acc.failed + 1 }
  | .raised =>
    { acc with processed := acc.processed ++ [i],
               failed := acc.failed + 1,
               fragmentsWritten := acc.fragmentsWritten ++
                 [(i, [LOG_HEADER, [i, now i, "fail", "unexpected_error"]])] }

/-- The per-item loop plus the final `sys.exit(0)` of `run_busco_batch.py`
(lines 89–130).  `outcome i` is how the child for item `i` ends; `now i` is
the timestamp taken when writing the fallback log fragment for a raised
launch. -/
def runBatch (slice : List String) (outcome : String → ItemOutcome)
    (now : String → String) : BatchRun :=
  slice.foldl (batchStep outcome now)
    { processed := [], succeeded := 0, failed := 0,
      fragmentsWritten := [], exitCode := 0 }

/-- The facts about the environment that decide which path
`run_busco_analysis.py`'s `main` takes for one item. -/
structure AnalysisEnv where
  extractScriptExists : Bool
  buscoScriptExists : Bool
  gffExists : Bool
  fastaExists : Bool
  extractOk : Bool
  proteinFileExists : Bool
  lineageExists : Bool
  buscoOk : Bool
  parseOk : Bool
  deriving DecidableEq

/-- What one run of `run_busco_analysis.py` leaves behind: its exit code, the
`(result, step)` row appended to the log, and whether a success row was
appended to the results file. -/
structure AnalysisOutcome where
  exitCode : Nat
  logRow : Option (String × String)
  wroteSuccess : Bool
  deriving DecidableEq

/-- `run_busco_analysis.py` `main` (lines 181–317): precondition checks, the
two external stages, report parsing, and the top-level handler mapping any
unanticipated exception to `fail, unexpected_error`. -/
def runAnalysis (env : AnalysisEnv) : AnalysisOutcome :=
  if !env.extractScriptExists then ⟨1, some ("fail", "script_missing"), false⟩
  else if !env.buscoScriptExists then ⟨1, some ("fail", "script_missing"), false⟩
  else if !env.gffExists then ⟨1, some ("fail", "input_missing"), false⟩
  else if !env.fastaExists then ⟨1, some ("fail", "input_missing"), false⟩
  else if !env.extractOk then ⟨1, some ("fail", "extract_proteins"), false⟩
  else if !env.proteinFileExists then ⟨1, some ("fail", "extract_proteins"), false⟩
  else if !env.lineageExists then ⟨1, some ("fail", "lineage_missing"), false⟩
  else if !env.buscoOk then ⟨1, some ("fail", "run_busco"), false⟩
  else if !env.parseOk then ⟨1, some ("fail", "unexpected_error"), false⟩
  else ⟨0, some ("success", "NA"), true⟩

/-- `aggregate_results.load_existing_ids` over the data rows of a canonical
TSV (`none` = file absent). -/
def load_existing_ids (file : Option (List Row)) : Finset String :=
  match file with
  | none => ∅
  | some rows =>
    (rows.filterMap (fun r =>
      match getVal r "annotation_id" with
      | some a => if a = "" then none else some a
      | none => none)).toFinset

/-- `aggregate_results.load_existing_error_entries`. -/
def load_existing_error_entries (file : Option (List Row)) :
    Finset (String × String) :=
  match file with
  | none => ∅
  | some rows =>
    (rows.filterMap (fun r =>
      match getVal r "annotation_id", getVal r "run_at" with
      | some a, some t => if a = "" ∨ t = "" then none else some (a, t)
      | _, _ => none)).toFinset

/-- Whether a DictReader row carries every column of `expected` (Python's
`set(expected_header).issubset(row.keys())`). -/
def hasCols (r : Row) (expected : List String) : Bool :=
  expected.all (fun c => (lookupCol r c).isSome)

/-- Python's `{k: row[k] for k in expected_header}`. -/
def projectRow (expected : List String) (r : Row) : Row :=
  expected.map (fun c => (c, getVal r c))

/-- `aggregate_results.read_fragment`: the well-formed rows of a fragment
file, each narrowed to the expected columns; the other rows are skipped. -/
def read_fragment (file : Tsv) (expected : List String) : List Row :=
  (dictRows file).filterMap (fun r =>
    if hasCols r expected then some (projectRow expected r) else none)

/-- The append-if-unseen loop of `aggregate_results.main` (lines 111–128):
the rows kept — the first occurrence of each key not already in `seen`. -/
def dedupNew {α κ : Type} [DecidableEq κ] (key : α → κ) (seen : Finset κ) :
    List α → List α
  | [] => []
  | r :: rs =>
    if key r ∈ seen then dedupNew key seen rs
    else r :: dedupNew key (insert (key r) seen) rs

/-- `csv.DictWriter` serialisation followed by a later re-read: a `None`
value is written out as the empty string. -/
def writtenRow (r : Row) : Row :=
  r.map (fun p => (p.1, some (p.2.getD "")))

/-- Dedup key of a success row (`row['annotation_id']`). -/
def keyId (r : Row) : Option String := getVal r "annotation_id"

/-- Dedup key of an outcome row (`(row['annotation_id'], row['run_at'])`). -/
def keyIdRun (r : Row) : Option String × Option String :=
  (getVal r "annotation_id", getVal r "run_at")

/-- All well-formed rows of the `result_*.tsv` fragments, in scan order. -/
def resultRows (resultFrags : List Tsv) : List Row :=
  (resultFrags.map (fun f => read_fragment f BUSCO_HEADER)).flatten

/-- All well-formed rows of the `log_*.tsv` fragments, in scan order. -/
def logRows (logFrags : List Tsv) : List Row :=
  (logFrags.map (fun f => read_fragment f ERROR_LOG_HEADER)).flatten

/-- The two canonical logs, each `none` when its file does not exist, else
its data rows. -/
structure AggState where
  busco : Option (List Row)
  errlog : Option (List Row)
  deriving DecidableEq

/-- The `busco_new` list built by `aggregate_results.main`. -/
def busco_new (resultFrags : List Tsv) (st : AggState) : List Row :=
  dedupNew keyId ((load_existing_ids st.busco).image some)
    (resultRows resultFrags)

/-- The `error_new` list built by `aggregate_results.main`. -/
def error_new (logFrags : List Tsv) (st : AggState) : List Row :=
  dedupNew keyIdRun
    ((load_existing_error_entries st.errlog).image (fun p => (some p.1, some p.2)))
    (logRows logFrags)

/-- `aggregate_results.main` (lines 97–131): read the dedup keys, ensure the
headers exist, scan the fragments, and append only the unseen rows. -/
def aggregate (resultFrags logFrags : List Tsv) (st : AggState) : AggState :=
  { busco := some (st.busco.getD [] ++ (busco_new resultFrags st).map writtenRow),
    errlog := some (st.errlog.getD [] ++ (error_new logFrags st).map writtenRow) }

/-! ### Helper lemmas about rows -/

theorem lookupCol_writtenRow (r : Row) (c : String) :
    lookupCol (writtenRow r) c =
      (lookupCol r c).map (fun v => some (v.getD "")) := by
  induction r with
  | nil => rfl
  | cons p rest ih =>
    obtain ⟨k, v⟩ := p
    by_cases h : k = c
    · simp [writtenRow, lookupCol, h]
    · simp only [writtenRow, List.map_cons, lookupCol, if_neg h]
      simpa [writtenRow] using ih

theorem getVal_writtenRow {s : String} (r : Row) (c : String) (hs : s ≠ "") :
    getVal (writtenRow r) c = some s ↔ getVal r c = some s := by
  rw [getVal, getVal, lookupCol_writtenRow]
  cases h : lookupCol r c with
  | none => simp [Option.join]
  | some v =>
    cases v with
    | none => simp [Option.join, Ne.symm hs]
    | some w => simp [Option.join]

theorem keyId_writtenRow {s : String} (r : Row) (hs : s ≠ "") :
    keyId (writtenRow r) = some s ↔ keyId r = some s :=
  getVal_writtenRow r "annotation_id" hs

theorem keyIdRun_writtenRow {a t : String} (r : Row) (ha : a ≠ "")
    (ht : t ≠ "") :
    keyIdRun (writtenRow r) = (some a, some t) ↔
      keyIdRun r = (some a, some t) := by
  simp only [keyIdRun, Prod.mk.injEq]
  rw [getVal_writtenRow r "annotation_id" ha, getVal_writtenRow r "run_at" ht]

theorem lookupCol_projectRow {c : String} (expected : List String) (r : Row)
    (hc : c ∈ expected) :
    lookupCol (projectRow expected r) c = some (getVal r c) := by
  induction expected with
  | nil => cases hc
  | cons e es ih =>
    simp only [projectRow, List.map_cons, lookupCol]
    by_cases h : e = c
    · simp [h]
    · have hces : c ∈ es := by
        rcases List.mem_cons.mp hc with h1 | h1
        · exact absurd h1.symm h
        · exact h1
      simpa [h, projectRow] using ih hces

theorem getVal_projectRow {c : String} (expected : List String) (r : Row)
    (hc : c ∈ expected) :
    getVal (projectRow expected r) c = getVal r c := by
  rw [getVal, lookupCol_projectRow expected r hc]
  rfl

/-! ### Helper lemmas about the dedup loop -/

section Dedup

variable {α κ : Type} [DecidableEq κ] (key : α → κ)

theorem dedupNew_eq_nil {seen : Finset κ} {rows : List α}
    (h : ∀ r ∈ rows, key r ∈ seen) : dedupNew key seen rows = [] := by
  induction rows with
  | nil => rfl
  | cons r rs ih =>
    rw [dedupNew, if_pos (h r (List.mem_cons_self r rs))]
    exact ih fun x hx => h x (List.mem_cons_of_mem _ hx)

theorem mem_rows_of_mem_dedupNew {seen : Finset κ} {rows : List α} {r : α}
    (h : r ∈ dedupNew key seen rows) : r ∈ rows := by
  induction rows generalizing seen with
  | nil => cases h
  | cons hd tl ih =>
    rw [dedupNew] at h
    by_cases hk : key hd ∈ seen
    · rw [if_pos hk] at h
      exact List.mem_cons_of_mem _ (ih h)
    · rw [if_neg hk] at h
      rcases List.mem_cons.mp h with h1 | h1
      · exact h1 ▸ List.mem_cons_self hd tl
      · exact List.mem_cons_of_mem _ (ih h1)

theorem key_notin_seen_of_mem_dedupNew {seen : Finset κ} {rows : List α}
    {r : α} (h : r ∈ dedupNew key seen rows) : key r ∉ seen := by
  induction rows generalizing seen with
  | nil => cases h
  | cons hd tl ih =>
    rw [dedupNew] at h
    by_cases hk : key hd ∈ seen
    · rw [if_pos hk] at h
      exact ih h
    · rw [if_neg hk] at h
      rcases List.mem_cons.mp h with h1 | h1
      · exact h1 ▸ hk
      · intro hmem
        exact ih h1 (Finset.mem_insert_of_mem hmem)

theorem nodup_keys_dedupNew (seen : Finset κ) (rows : List α) :
    ((dedupNew key seen rows).map key).Nodup := by
  induction rows generalizing seen with
  | nil => exact List.nodup_nil
  | cons hd tl ih =>
    rw [dedupNew]
    by_cases hk : key hd ∈ seen
    · rw [if_pos hk]
      exact ih seen
    · rw [if_neg hk]
      rw [List.map_cons, List.nodup_cons]
      refine ⟨?_, ih (insert (key hd) seen)⟩
      intro hmem
      rcases List.mem_map.mp hmem with ⟨s, hs, hks⟩
      exact key_notin_seen_of_mem_dedupNew key hs
        (hks ▸ Finset.mem_insert_self (key hd) seen)

theorem key_cover_dedupNew (seen : Finset κ) {rows : List α} {r : α}
    (hr : r ∈ rows) :
    key r ∈ seen ∨ ∃ s ∈ dedupNew key seen rows, key s = key r := by
  induction rows generalizing seen with
  | nil => cases hr
  | cons hd tl ih =>
    rw [dedupNew]
    by_cases hk : key hd ∈ seen
    · rw [if_pos hk]
      rcases List.mem_cons.mp hr with h1 | h1
      · exact Or.inl (h1 ▸ hk)
      · exact ih seen h1
    · rw [if_neg hk]
      rcases List.mem_cons.mp hr with h1 | h1
      · exact Or.inr ⟨hd, List.mem_cons_self _ _, by rw [h1]⟩
      · rcases ih (insert (key hd) seen) h1 with h2 | ⟨s, hs, hks⟩
        · rcases Finset.mem_insert.mp h2 with h3 | h3
          · exact Or.inr ⟨hd, List.mem_cons_self _ _, h3.symm⟩
          · exact Or.inl h3
        · exact Or.inr ⟨s, List.mem_cons_of_mem _ hs, hks⟩

theorem countP_key_dedupNew {seen : Finset κ} {rows : List α} {k : κ}
    (h1 : k ∉ seen) (h2 : ∃ r ∈ rows, key r = k) :
    (dedupNew key seen rows).countP (fun r => decide (key r = k)) = 1 := by
  induction rows generalizing seen with
  | nil =>
    rcases h2 with ⟨r, hr, _⟩
    cases hr
  | cons hd tl ih =>
    rw [dedupNew]
    by_cases hk : key hd ∈ seen
    · rw [if_pos hk]
      refine ih h1 ?_
      rcases h2 with ⟨r, hr, hkr⟩
      rcases List.mem_cons.mp hr with h3 | h3
      · exact absurd (by rw [← hkr, h3]; exact hk) h1
      · exact ⟨r, h3, hkr⟩
    · rw [if_neg hk]
      by_cases hhd : key hd = k
      · rw [List.countP_cons_of_pos _ _ (by simpa using hhd)]
        have hzero :
            (dedupNew key (insert (key hd) seen) tl).countP
              (fun r => decide (key r = k)) = 0 := by
          rw [List.countP_eq_zero]
          intro s hs
          have := key_notin_seen_of_mem_dedupNew key hs
          simp only [decide_eq_true_eq]
          intro hsk
          exact this (by rw [hsk, ← hhd]; exact Finset.mem_insert_self _ _)
        rw [hzero]
      · rw [List.countP_cons_of_neg _ _ (by simpa using hhd)]
        refine ih ?_ ?_
        · intro hmem
          rcases Finset.mem_insert.mp hmem with h3 | h3
          · exact hhd h3.symm
          · exact h1 h3
        · rcases h2 with ⟨r, hr, hkr⟩
          rcases List.mem_cons.mp hr with h3 | h3
          · exact absurd (h3 ▸ hkr) hhd
          · exact ⟨r, h3, hkr⟩

end Dedup

/-! ### Helper lemmas about the canonical-log readers -/

theorem mem_load_existing_ids {rows : List Row} {a : String} :
    a ∈ load_existing_ids (some rows) ↔
      ∃ r ∈ rows, getVal r "annotation_id" = some a ∧ a ≠ "" := by
  simp only [load_existing_ids, List.mem_toFinset, List.mem_filterMap]
  constructor
  · rintro ⟨r, hr, hm⟩
    refine ⟨r, hr, ?_⟩
    split at hm
    · next v heq =>
      split at hm
      · cases hm
      · next hv =>
        cases hm
        exact ⟨heq, hv⟩
    · cases hm
  · rintro ⟨r, hr, hv, ha⟩
    refine ⟨r, hr, ?_⟩
    rw [hv]
    simp [ha]

theorem mem_load_existing_error_entries {rows : List Row} {a t : String} :
    (a, t) ∈ load_existing_error_entries (some rows) ↔
      ∃ r ∈ rows, getVal r "annotation_id" = some a ∧
        getVal r "run_at" = some t ∧ a ≠ "" ∧ t ≠ "" := by
  simp only [load_existing_error_entries, List.mem_toFinset, List.mem_filterMap]
  constructor
  · rintro ⟨r, hr, hm⟩
    refine ⟨r, hr, ?_⟩
    split at hm
    · next v w heq1 heq2 =>
      split at hm
      · cases hm
      · next hv =>
        cases hm
        push_neg at hv
        exact ⟨heq1, heq2, hv⟩
    · cases hm
  · rintro ⟨r, hr, h1, h2, ha, ht⟩
    refine ⟨r, hr, ?_⟩
    rw [h1, h2]
    simp [ha, ht]

/-! ### Claim theorems -/

/-- C6: for pending count `P > 0` and a positive per-cycle budget `B`, the
eligible count is `min(max_chunks*B, P)` and the chunk count is
`min(max_chunks, ceil(eligible/B))` (the division here is Nat ceiling
division, as the accompanying Galois characterisation states); with the
budget unset the chunk count is `min(max_chunks, P)`; in particular `P = 10`,
`B = 3`, `max_chunks = 256` gives eligible `10` and chunk count `4`. -/
theorem chunk_count_formula (P maxC B : Nat) (hP : 0 < P) (hB : 0 < B) :
    eligibleCount P maxC B = min (maxC * B) P ∧
    computeChunks P maxC (some B) =
      min maxC ((min (maxC * B) P + B - 1) / B) ∧
    (∀ m : Nat, (min (maxC * B) P + B - 1) / B ≤ m ↔ min (maxC * B) P ≤ B * m) ∧
    computeChunks P maxC none = min maxC P ∧
    eligibleCount 10 256 3 = 10 ∧
    computeChunks 10 256 (some 3) = 4 := by
  refine ⟨rfl, ?_, ?_, ?_, by decide, by decide⟩
  · simp [computeChunks, eligibleCount, hP.ne', hB.ne']
  · intro m
    rw [Nat.div_le_iff_le_mul_add_pred hB]
    omega
  · simp [computeChunks, hP.ne']

/-- C6 witness: the formula evaluated at `P = 10`, `B = 3`,
`max_chunks = 256`. -/
theorem chunk_count_formula_witness :
    0 < 10 ∧ 0 < 3 ∧ computeChunks 10 256 (some 3) = 4 :=
  ⟨by decide, by decide,
    (chunk_count_formula 10 256 3 (by decide) (by decide)).2.2.2.2.2⟩

/-- C8: a missing catalog is fatal (exit status 1), while an existing catalog
that yields no ids succeeds, emitting an empty matrix, chunk count 0 and
pending count 0. -/
theorem missing_vs_empty_catalog (buscoF errF : Option Tsv) (maxC : Nat)
    (mpj : Option Nat) :
    buildMatrix none buscoF errF maxC mpj = .fatal 1 ∧
    ∀ cat : Tsv, load_ids (some cat) "annotation_id" = ∅ →
      buildMatrix (some cat) buscoF errF maxC mpj = .outputs [] 0 0 := by
  constructor
  · rfl
  · intro cat h
    simp [buildMatrix, h]

/-- C8 witness: an existing but empty catalog file reports zero work. -/
theorem missing_vs_empty_catalog_witness :
    buildMatrix (some []) none none 256 none = .outputs [] 0 0 :=
  (missing_vs_empty_catalog none none 256 none).2 [] rfl

/-- C10: aggregation only appends: each canonical log afterwards is its prior
data rows (empty when the file was absent, in which case only the header is
created) followed by the newly appended rows; every pre-existing row is
unchanged.  Fragment files are only ever read (`read_fragment` takes them as
immutable input). -/
theorem aggregate_frame (rf lf : List Tsv) (st : AggState) :
    (∃ nb, (aggregate rf lf st).busco = some (st.busco.getD [] ++ nb)) ∧
    (∃ ne2, (aggregate rf lf st).errlog = some (st.errlog.getD [] ++ ne2)) ∧
    (∀ rows, st.busco = some rows →
      ((aggregate rf lf st).busco.getD []).take rows.length = rows) ∧
    (∀ rows, st.errlog = some rows →
      ((aggregate rf lf st).errlog.getD []).take rows.length = rows) := by
  refine ⟨⟨_, rfl⟩, ⟨_, rfl⟩, ?_, ?_⟩
  · intro rows h
    simp [aggregate, h, List.take_left]
  · intro rows h
    simp [aggregate, h, List.take_left]

/-- C10 witness: a one-row success log is preserved as a prefix. -/
theorem aggregate_frame_witness :
    ((aggregate [] [] ⟨some [[("annotation_id", some "x")]], none⟩).busco.getD
      []).take 1 = [[("annotation_id", some "x")]] :=
  (aggregate_frame [] [] ⟨some [[("annotation_id", some "x")]], none⟩).2.2.1
    [[("annotation_id", some "x")]] rfl

/-- C9: a fragment data row that does not carry every column of the expected
header is skipped (no error is possible: `read_fragment` is total), and the
well-formed rows are all still processed, in order. -/
theorem fragment_rows_skipped (file : Tsv) (expected : List String) :
    read_fragment file expected =
      ((dictRows file).filter (fun r => hasCols r expected)).map
        (projectRow expected) ∧
    (∀ r ∈ dictRows file, hasCols r expected →
      projectRow expected r ∈ read_fragment file expected) ∧
    (∀ r ∈ read_fragment file expected,
      ∃ r0 ∈ dictRows file, hasCols r0 expected ∧ r = projectRow expected r0) := by
  have heq : read_fragment file expected =
      ((dictRows file).filter (fun r => hasCols r expected)).map
        (projectRow expected) := by
    rw [read_fragment]
    induction dictRows file with
    | nil => rfl
    | cons r rs ih =>
      by_cases h : hasCols r expected <;>
        simp [List.filterMap_cons, List.filter_cons, h, ih]
  refine ⟨heq, ?_, ?_⟩
  · intro r hr hc
    rw [heq]
    exact List.mem_map_of_mem _ (List.mem_filter.mpr ⟨hr, hc⟩)
  · intro r hr
    rw [heq] at hr
    rcases List.mem_map.mp hr with ⟨r0, h0, rfl⟩
    rcases List.mem_filter.mp h0 with ⟨h1, h2⟩
    exact ⟨r0, h1, h2, rfl⟩

/-- C9 witness: a malformed row (header without the expected column) is
skipped while a well-formed row of the same pass is still processed. -/
theorem fragment_rows_skipped_witness :
    read_fragment [["foo"], ["x"]] ["annotation_id"] = [] ∧
    [("annotation_id", some "x")] ∈
      read_fragment [["annotation_id"], ["x"]] ["annotation_id"] := by
  constructor
  · decide
  · exact (fragment_rows_skipped [["annotation_id"], ["x"]]
      ["annotation_id"]).2.1 [("annotation_id", some "x")] (by decide)
      (by decide)

theorem mem_strideSlice {α : Type} {l : List α} {k N : Nat} {x : α} :
    x ∈ strideSlice l k N ↔
      ∃ i, l[i]? = some x ∧ k ≤ i ∧ (i - k) % N = 0 := by
  simp only [strideSlice, List.mem_map, List.mem_filter]
  constructor
  · rintro ⟨⟨i, a⟩, ⟨hmem, hp⟩, rfl⟩
    rw [List.mk_mem_enum_iff_getElem?] at hmem
    simp only [Bool.and_eq_true, decide_eq_true_eq] at hp
    exact ⟨i, hmem, hp.1, hp.2⟩
  · rintro ⟨i, hmem, h1, h2⟩
    refine ⟨(i, x), ⟨List.mk_mem_enum_iff_getElem?.mpr hmem, ?_⟩, rfl⟩
    simp [h1, h2]

/-- C3: the stride slices `l[k::N]`, `0 ≤ k < N`, cover the eligible list
(every element is in a slice and every slice element is from the list) and,
for a duplicate-free list, no element is in two distinct slices; the
8-element, 4-chunk example distributes as documented. -/
theorem stride_partition :
    (∀ (l : List String) (N : Nat), 1 ≤ N →
      ∀ x, x ∈ l ↔ ∃ k, k < N ∧ x ∈ strideSlice l k N) ∧
    (∀ (l : List String) (N k k' : Nat) (x : String), l.Nodup →
      k < N → k' < N → x ∈ strideSlice l k N → x ∈ strideSlice l k' N →
      k = k') ∧
    strideSlice ["a","b","c","d","e","f","g","h"] 0 4 = ["a","e"] ∧
    strideSlice ["a","b","c","d","e","f","g","h"] 1 4 = ["b","f"] ∧
    strideSlice ["a","b","c","d","e","f","g","h"] 2 4 = ["c","g"] ∧
    strideSlice ["a","b","c","d","e","f","g","h"] 3 4 = ["d","h"] := by
  have hmod : ∀ i k N : Nat, k < N → k ≤ i → (i - k) % N = 0 → i % N = k := by
    intro i k N hkN hki h
    obtain ⟨q, hq⟩ := Nat.dvd_of_mod_eq_zero h
    have hi : i = k + N * q := by omega
    rw [hi, Nat.add_mul_mod_self_left]
    exact Nat.mod_eq_of_lt hkN
  refine ⟨?_, ?_, by decide, by decide, by decide, by decide⟩
  · intro l N hN x
    constructor
    · intro hx
      obtain ⟨i, hi⟩ := List.mem_iff_getElem?.mp hx
      refine ⟨i % N, Nat.mod_lt i (by omega), ?_⟩
      rw [mem_strideSlice]
      refine ⟨i, hi, Nat.mod_le i N, ?_⟩
      have hdm := Nat.div_add_mod i N
      have : i - i % N = N * (i / N) := by omega
      rw [this, Nat.mul_mod_right]
    · rintro ⟨k, _, hx⟩
      obtain ⟨i, hi, _, _⟩ := mem_strideSlice.mp hx
      exact List.getElem?_mem hi
  · intro l N k k' x hnd hkN hk'N h1 h2
    obtain ⟨i, hi, hki, hmi⟩ := mem_strideSlice.mp h1
    obtain ⟨i', hi', hki', hmi'⟩ := mem_strideSlice.mp h2
    have hlen : i < l.length := by
      by_contra hc
      rw [List.getElem?_eq_none (by omega)] at hi
      cases hi
    have hii : i = i' := List.getElem?_inj hlen hnd (hi.trans hi'.symm)
    subst hii
    have e1 := hmod i k N hkN hki hmi
    have e2 := hmod i k' N hk'N hki' hmi'
    omega

/-- C3 witness: the union direction applied to a concrete list and chunk
count. -/
theorem stride_partition_witness :
    "c" ∈ ["a", "b", "c", "d"] ↔
      ∃ k, k < 2 ∧ "c" ∈ strideSlice ["a", "b", "c", "d"] k 2 :=
  stride_partition.1 ["a", "b", "c", "d"] 2 (by decide) "c"

theorem batchStep_exitCode (outcome : String → ItemOutcome)
    (now : String → String) (acc : BatchRun) (i : String) :
    (batchStep outcome now acc i).exitCode = acc.exitCode := by
  rw [batchStep]
  cases outcome i with
  | exited code => by_cases hc : code = 0 <;> simp [hc]
  | raised => simp

theorem batchStep_processed (outcome : String → ItemOutcome)
    (now : String → String) (acc : BatchRun) (i : String) :
    (batchStep outcome now acc i).processed = acc.processed ++ [i] := by
  rw [batchStep]
  cases outcome i with
  | exited code => by_cases hc : code = 0 <;> simp [hc]
  | raised => simp

theorem batchStep_counts (outcome : String → ItemOutcome)
    (now : String → String) (acc : BatchRun) (i : String) :
    (batchStep outcome now acc i).succeeded +
      (batchStep outcome now acc i).failed =
      acc.succeeded + acc.failed + 1 := by
  rw [batchStep]
  cases outcome i with
  | exited code =>
    by_cases hc : code = 0 <;> simp [hc] <;> omega
  | raised =>
    simp
    omega

theorem batchStep_fragments_mono (outcome : String → ItemOutcome)
    (now : String → String) (acc : BatchRun) (i : String) {p : String × Tsv}
    (hp : p ∈ acc.fragmentsWritten) :
    p ∈ (batchStep outcome now acc i).fragmentsWritten := by
  rw [batchStep]
  cases outcome i with
  | exited code =>
    by_cases hc : code = 0 <;> simp [hc, hp]
  | raised =>
    simp only [List.mem_append]
    exact Or.inl hp

theorem batchStep_raised_fragment (outcome : String → ItemOutcome)
    (now : String → String) (acc : BatchRun) (i : String)
    (h : outcome i = .raised) :
    (i, [LOG_HEADER, [i, now i, "fail", "unexpected_error"]]) ∈
      (batchStep outcome now acc i).fragmentsWritten := by
  rw [batchStep, h]
  simp

theorem foldl_batchStep_exitCode (outcome : String → ItemOutcome)
    (now : String → String) (slice : List String) (acc : BatchRun) :
    (slice.foldl (batchStep outcome now) acc).exitCode = acc.exitCode := by
  induction slice generalizing acc with
  | nil => rfl
  | cons hd tl ih =>
    rw [List.foldl_cons, ih, batchStep_exitCode]

theorem foldl_batchStep_processed (outcome : String → ItemOutcome)
    (now : String → String) (slice : List String) (acc : BatchRun) :
    (slice.foldl (batchStep outcome now) acc).processed =
      acc.processed ++ slice := by
  induction slice generalizing acc with
  | nil => simp
  | cons hd tl ih =>
    rw [List.foldl_cons, ih, batchStep_processed]
    simp

theorem foldl_batchStep_counts (outcome : String → ItemOutcome)
    (now : String → String) (slice : List String) (acc : BatchRun) :
    (slice.foldl (batchStep outcome now) acc).succeeded +
      (slice.foldl (batchStep outcome now) acc).failed =
      acc.succeeded + acc.failed + slice.length := by
  induction slice generalizing acc with
  | nil => simp
  | cons hd tl ih =>
    rw [List.foldl_cons, ih, batchStep_counts]
    simp
    omega

theorem foldl_batchStep_fragments_mono (outcome : String → ItemOutcome)
    (now : String → String) (slice : List String) (acc : BatchRun)
    {p : String × Tsv} (hp : p ∈ acc.fragmentsWritten) :
    p ∈ (slice.foldl (batchStep outcome now) acc).fragmentsWritten := by
  induction slice generalizing acc with
  | nil => exact hp
  | cons hd tl ih =>
    rw [List.foldl_cons]
    exact ih _ (batchStep_fragments_mono outcome now acc hd hp)

theorem foldl_batchStep_raised (outcome : String → ItemOutcome)
    (now : String → String) (slice : List String) (acc : BatchRun)
    {i : String} (hi : i ∈ slice) (h : outcome i = .raised) :
    (i, [LOG_HEADER, [i, now i, "fail", "unexpected_error"]]) ∈
      (slice.foldl (batchStep outcome now) acc).fragmentsWritten := by
  induction slice generalizing acc with
  | nil => cases hi
  | cons hd tl ih =>
    rw [List.foldl_cons]
    rcases List.mem_cons.mp hi with rfl | hmem
    · exact foldl_batchStep_fragments_mono outcome now tl _
        (batchStep_raised_fragment outcome now acc i h)
    · exact ih _ hmem

set_option maxHeartbeats 1000000 in
theorem runAnalysis_cases (env : AnalysisEnv) :
    ((runAnalysis env).exitCode = 0 ∧
      (runAnalysis env).logRow = some ("success", "NA")) ∨
    ∃ s, (runAnalysis env).exitCode = 1 ∧
      (runAnalysis env).logRow = some ("fail", s) := by
  rw [runAnalysis]
  split_ifs <;>
    first
      | exact Or.inl ⟨rfl, rfl⟩
      | exact Or.inr ⟨_, rfl, rfl⟩

/-- C7: the batch processes every item of its slice in order and always exits
0; the items' outcomes only move the success/failure counters; a launch that
raises writes the fallback `unexpected_error` log fragment; and the child
executable records a `fail` log row on every path with a non-zero exit, so a
non-zero child exit is also durably recorded. -/
theorem batch_isolates_failures (slice : List String)
    (outcome : String → ItemOutcome) (now : String → String) :
    (runBatch slice outcome now).exitCode = 0 ∧
    (runBatch slice outcome now).processed = slice ∧
    (runBatch slice outcome now).succeeded +
      (runBatch slice outcome now).failed = slice.length ∧
    (∀ i ∈ slice, outcome i = .raised →
      (i, [LOG_HEADER, [i, now i, "fail", "unexpected_error"]]) ∈
        (runBatch slice outcome now).fragmentsWritten) ∧
    (∀ env : AnalysisEnv, (runAnalysis env).exitCode ≠ 0 →
      ∃ s, (runAnalysis env).logRow = some ("fail", s)) := by
  refine ⟨foldl_batchStep_exitCode .., ?_, ?_, ?_, ?_⟩
  · rw [runBatch, foldl_batchStep_processed]
    rfl
  · rw [runBatch, foldl_batchStep_counts]
    simp
  · intro i hi h
    exact foldl_batchStep_raised outcome now slice _ hi h
  · intro env h
    rcases runAnalysis_cases env with ⟨h0, _⟩ | ⟨s, _, hl⟩
    · exact absurd h0 h
    · exact ⟨s, hl⟩

/-- C7 witness: a slice with one success, one non-zero exit and one raised
launch — all three processed, the raise recorded, the batch exit 0. -/
theorem batch_isolates_failures_witness :
    (runBatch ["a", "b", "c"]
      (fun i => if i = "a" then .exited 0 else
        if i = "b" then .exited 1 else .raised) (fun _ => "t")).exitCode = 0 ∧
    ("c", [LOG_HEADER, ["c", "t", "fail", "unexpected_error"]]) ∈
      (runBatch ["a", "b", "c"]
        (fun i => if i = "a" then .exited 0 else
          if i = "b" then .exited 1 else .raised)
        (fun _ => "t")).fragmentsWritten := by
  have h := batch_isolates_failures ["a", "b", "c"]
    (fun i => if i = "a" then .exited 0 else
      if i = "b" then .exited 1 else .raised) (fun _ => "t")
  exact ⟨h.1, h.2.2.2.1 "c" (by decide) (by decide)⟩

/-- C1: for any catalog set `A`, success set `S ⊆ A` and outcome-id set `E`,
the pending computation is `sort(A−S−E) ++ sort(E−S)` — never-attempted ids
sorted first, previously-failed ids sorted second — has no duplicates, and
contains no element of `S`. -/
theorem pending_computation_spec (A S E : Finset String) (hSA : S ⊆ A) :
    compute_pending_ids A S E =
      ((A \ S) \ E).sort (· ≤ ·) ++ (E \ S).sort (· ≤ ·) ∧
    List.Sorted (· ≤ ·) (((A \ S) \ E).sort (· ≤ ·)) ∧
    List.Sorted (· ≤ ·) ((E \ S).sort (· ≤ ·)) ∧
    (compute_pending_ids A S E).Nodup ∧
    ∀ s ∈ S, s ∉ compute_pending_ids A S E := by
  refine ⟨rfl, Finset.sort_sorted _ _, Finset.sort_sorted _ _, ?_, ?_⟩
  · rw [compute_pending_ids]
    refine List.Nodup.append (Finset.sort_nodup _ _) (Finset.sort_nodup _ _) ?_
    intro x hx1 hx2
    rw [Finset.mem_sort] at hx1 hx2
    exact (Finset.mem_sdiff.mp hx1).2 (Finset.mem_sdiff.mp hx2).1
  · intro s hs hmem
    rw [compute_pending_ids, List.mem_append] at hmem
    rcases hmem with h | h <;> rw [Finset.mem_sort] at h
    · exact (Finset.mem_sdiff.mp (Finset.mem_sdiff.mp h).1).2 hs
    · exact (Finset.mem_sdiff.mp h).2 hs

/-- C1 witness: the pending computation at a concrete catalog with a success
and a failed id avoids the success set. -/
theorem pending_computation_spec_witness :
    ({"a"} : Finset String) ⊆ {"a", "b", "c"} ∧
    ∀ s ∈ ({"a"} : Finset String),
      s ∉ compute_pending_ids {"a", "b", "c"} {"a"} {"b"} :=
  ⟨by decide,
    (pending_computation_spec {"a", "b", "c"} {"a"} {"b"} (by decide)).2.2.2.2⟩

/-- C2 counterexample: the id `x` has a row in the success log, and the
outcome log holds both an old `fail` row and the later `success` row for `x`;
retry-failed mode nevertheless schedules `x`, because it is computed from the
`fail` rows alone. -/
theorem sticky_success_counterexample :
    "x" ∈ load_ids (some [["annotation_id", "lineage"], ["x", "lin"]])
        "annotation_id" ∧
    "x" ∈ batchPendingIds {"x"}
        (some [["annotation_id", "run_at", "result", "step"],
               ["x", "t1", "fail", "run_busco"],
               ["x", "t2", "success", "NA"]]) true := by
  refine ⟨by decide, ?_⟩
  rw [show batchPendingIds {"x"}
      (some [["annotation_id", "run_at", "result", "step"],
             ["x", "t1", "fail", "run_busco"],
             ["x", "t2", "success", "NA"]]) true =
    (load_failed_ids
      (some [["annotation_id", "run_at", "result", "step"],
             ["x", "t1", "fail", "run_busco"],
             ["x", "t2", "success", "NA"]])).sort (· ≤ ·) from rfl]
  rw [Finset.mem_sort]
  decide

/-- C2 (amended): an id in the success set never appears in the matrix
resolver's pending computation, and the batch's default mode excludes every
id that has any row in the outcome log (the success path writes one); but
retry-failed mode computes its pending list solely from the `fail` rows of
the outcome log, never consulting the success log, so an id with both a
success record and an old failure row is scheduled again there. -/
theorem sticky_success_modes (A S E annIds : Finset String)
    (logF : Option Tsv) (i : String) :
    (i ∈ S → i ∉ compute_pending_ids A S E) ∧
    (i ∈ load_ids logF "annotation_id" →
      i ∉ batchPendingIds annIds logF false) ∧
    batchPendingIds annIds logF true = (load_failed_ids logF).sort (· ≤ ·) := by
  refine ⟨?_, ?_, rfl⟩
  · intro hi hmem
    rw [compute_pending_ids, List.mem_append] at hmem
    rcases hmem with h | h <;> rw [Finset.mem_sort] at h
    · exact (Finset.mem_sdiff.mp (Finset.mem_sdiff.mp h).1).2 hi
    · exact (Finset.mem_sdiff.mp h).2 hi
  · intro hi hmem
    rw [show batchPendingIds annIds logF false =
        (annIds \ load_ids logF "annotation_id").sort (· ≤ ·) from rfl,
      Finset.mem_sort, Finset.mem_sdiff] at hmem
    exact hmem.2 hi

/-- C2 witness: the non-retry exclusions applied at concrete inputs. -/
theorem sticky_success_modes_witness :
    "a" ∉ compute_pending_ids {"a"} {"a"} ∅ ∧
    "y" ∉ batchPendingIds {"y"} (some [["annotation_id"], ["y"]]) false :=
  ⟨(sticky_success_modes {"a"} {"a"} ∅ {"a"} none "a").1 (by decide),
   (sticky_success_modes ∅ ∅ ∅ {"y"} (some [["annotation_id"], ["y"]])
     "y").2.1 (by decide)⟩

theorem busco_new_after (rf lf : List Tsv) (st : AggState)
    (hb : ∀ r ∈ resultRows rf, ∃ s, keyId r = some s ∧ s ≠ "") :
    busco_new rf (aggregate rf lf st) = [] := by
  apply dedupNew_eq_nil
  intro r hr
  obtain ⟨s, hks, hs⟩ := hb r hr
  rw [hks, Finset.mem_image]
  refine ⟨s, ?_, rfl⟩
  show s ∈ load_existing_ids
    (some (st.busco.getD [] ++ (busco_new rf st).map writtenRow))
  rw [mem_load_existing_ids]
  rcases key_cover_dedupNew keyId ((load_existing_ids st.busco).image some)
      hr with hseen | ⟨r', hr', hk'⟩
  · rw [hks] at hseen
    rcases Finset.mem_image.mp hseen with ⟨a, ha, haa⟩
    obtain rfl : a = s := Option.some_inj.mp haa
    cases hsb : st.busco with
    | none =>
      rw [hsb] at ha
      exact absurd ha (Finset.not_mem_empty _)
    | some b0 =>
      rw [hsb] at ha
      rcases mem_load_existing_ids.mp ha with ⟨r0, hr0, hv0, hs0⟩
      refine ⟨r0, ?_, hv0, hs0⟩
      exact List.mem_append_left _ hr0
  · refine ⟨writtenRow r',
      List.mem_append_right _ (List.mem_map_of_mem _ hr'), ?_, hs⟩
    exact (keyId_writtenRow r' hs).mpr (hk'.trans hks)

theorem error_new_after (rf lf : List Tsv) (st : AggState)
    (he : ∀ r ∈ logRows lf,
      ∃ a t, keyIdRun r = (some a, some t) ∧ a ≠ "" ∧ t ≠ "") :
    error_new lf (aggregate rf lf st) = [] := by
  apply dedupNew_eq_nil
  intro r hr
  obtain ⟨a, t, hks, ha, ht⟩ := he r hr
  rw [hks, Finset.mem_image]
  refine ⟨(a, t), ?_, rfl⟩
  show (a, t) ∈ load_existing_error_entries
    (some (st.errlog.getD [] ++ (error_new lf st).map writtenRow))
  rw [mem_load_existing_error_entries]
  rcases key_cover_dedupNew keyIdRun
      ((load_existing_error_entries st.errlog).image
        (fun p => (some p.1, some p.2)))
      hr with hseen | ⟨r', hr', hk'⟩
  · rw [hks] at hseen
    rcases Finset.mem_image.mp hseen with ⟨⟨a0, t0⟩, hmem0, heq0⟩
    obtain ⟨rfl, rfl⟩ : a0 = a ∧ t0 = t := by
      rw [Prod.mk.injEq] at heq0
      exact ⟨Option.some_inj.mp heq0.1, Option.some_inj.mp heq0.2⟩
    cases hsb : st.errlog with
    | none =>
      rw [hsb] at hmem0
      exact absurd hmem0 (Finset.not_mem_empty _)
    | some e0 =>
      rw [hsb] at hmem0
      rcases mem_load_existing_error_entries.mp hmem0 with
        ⟨r0, hr0, hv1, hv2, hs1, hs2⟩
      refine ⟨r0, ?_, hv1, hv2, hs1, hs2⟩
      exact List.mem_append_left _ hr0
  · have hkr : keyIdRun (writtenRow r') = (some a, some t) :=
      (keyIdRun_writtenRow r' ha ht).mpr (hk'.trans hks)
    rw [keyIdRun, Prod.mk.injEq] at hkr
    refine ⟨writtenRow r',
      List.mem_append_right _ (List.mem_map_of_mem _ hr'),
      hkr.1, hkr.2, ha, ht⟩

theorem aggregate_of_new_nil (rf lf : List Tsv) (st : AggState)
    (h1 : busco_new rf st = []) (h2 : error_new lf st = [])
    (hx : ∃ x, st.busco = some x) (hy : ∃ y, st.errlog = some y) :
    aggregate rf lf st = st := by
  obtain ⟨x, hxe⟩ := hx
  obtain ⟨y, hye⟩ := hy
  cases st with
  | mk b e =>
    simp only at hxe hye
    subst hxe hye
    rw [aggregate, h1, h2]
    simp

/-- C4 (amended): aggregation is idempotent — a second pass over the same
fragment directory appends zero rows — provided every well-formed fragment
row carries a nonempty `annotation_id` (and, for outcome rows, a nonempty
`run_at`); a fragment row whose id serialises as the empty string defeats the
dedup (see the counterexample) because the load step filters falsy ids while
the append step does not. -/
theorem aggregate_idempotent (rf lf : List Tsv) (st : AggState)
    (hb : ∀ r ∈ resultRows rf, ∃ s, keyId r = some s ∧ s ≠ "")
    (he : ∀ r ∈ logRows lf,
      ∃ a t, keyIdRun r = (some a, some t) ∧ a ≠ "" ∧ t ≠ "") :
    aggregate rf lf (aggregate rf lf st) = aggregate rf lf st :=
  aggregate_of_new_nil rf lf (aggregate rf lf st)
    (busco_new_after rf lf st hb) (error_new_after rf lf st he)
    ⟨_, rfl⟩ ⟨_, rfl⟩

/-- C4 counterexample: one result fragment whose single data row has an empty
`annotation_id`; the second aggregation pass appends the row again, so
running the aggregator twice does not equal running it once. -/
theorem aggregate_idempotent_counterexample :
    aggregate [BUSCO_HEADER :: [["", "lin", "1", "2", "3", "4", "5", "6"]]] []
        (aggregate [BUSCO_HEADER :: [["", "lin", "1", "2", "3", "4", "5", "6"]]]
          [] ⟨none, none⟩) ≠
      aggregate [BUSCO_HEADER :: [["", "lin", "1", "2", "3", "4", "5", "6"]]] []
        ⟨none, none⟩ := by
  decide

/-- C4 witness: with a well-formed, nonempty-id fragment the second pass is a
no-op. -/
theorem aggregate_idempotent_witness :
    aggregate [BUSCO_HEADER :: [["x", "lin", "1", "2", "3", "4", "5", "6"]]] []
        (aggregate [BUSCO_HEADER :: [["x", "lin", "1", "2", "3", "4", "5", "6"]]]
          [] ⟨none, none⟩) =
      aggregate [BUSCO_HEADER :: [["x", "lin", "1", "2", "3", "4", "5", "6"]]] []
        ⟨none, none⟩ := by
  refine aggregate_idempotent
    [BUSCO_HEADER :: [["x", "lin", "1", "2", "3", "4", "5", "6"]]] []
    ⟨none, none⟩ ?_ ?_
  · intro r hr
    rw [show resultRows
        [BUSCO_HEADER :: [["x", "lin", "1", "2", "3", "4", "5", "6"]]] =
      [[("annotation_id", some "x"), ("lineage", some "lin"),
        ("busco_count", some "1"), ("complete", some "2"),
        ("single", some "3"), ("duplicated", some "4"),
        ("fragmented", some "5"), ("missing", some "6")]] from by decide,
      List.mem_singleton] at hr
    subst hr
    exact ⟨"x", rfl, by decide⟩
  · intro r hr
    rw [show logRows ([] : List Tsv) = [] from rfl] at hr
    cases hr

theorem countP_id_writtenRow_map {s : String} (l : List Row) (hs : s ≠ "") :
    (l.map writtenRow).countP (fun r => decide (keyId r = some s)) =
      l.countP (fun r => decide (keyId r = some s)) := by
  rw [List.countP_map]
  apply List.countP_congr
  intro r hr
  simp only [Function.comp_apply, decide_eq_true_eq]
  exact keyId_writtenRow r hs

theorem countP_pair_writtenRow_map {a t : String} (l : List Row) (ha : a ≠ "")
    (ht : t ≠ "") :
    (l.map writtenRow).countP
        (fun r => decide (keyIdRun r = (some a, some t))) =
      l.countP (fun r => decide (keyIdRun r = (some a, some t))) := by
  rw [List.countP_map]
  apply List.countP_congr
  intro r hr
  simp only [Function.comp_apply, decide_eq_true_eq]
  exact keyIdRun_writtenRow r ha ht

theorem aggregate_countP_id (rf lf : List Tsv) (st : AggState) {s : String}
    (hs : s ≠ "") (hnot : s ∉ load_existing_ids st.busco)
    (hex : ∃ r ∈ resultRows rf, keyId r = some s) :
    ((aggregate rf lf st).busco.getD []).countP
      (fun r => decide (keyId r = some s)) = 1 := by
  rw [show (aggregate rf lf st).busco.getD [] =
      st.busco.getD [] ++ (busco_new rf st).map writtenRow from rfl,
    List.countP_append]
  have h0 : (st.busco.getD []).countP
      (fun r => decide (keyId r = some s)) = 0 := by
    cases hsb : st.busco with
    | none => rfl
    | some b0 =>
      rw [hsb] at hnot
      rw [List.countP_eq_zero]
      intro r hr
      simp only [decide_eq_true_eq]
      intro hk
      exact hnot (mem_load_existing_ids.mpr ⟨r, hr, hk, hs⟩)
  rw [h0, countP_id_writtenRow_map _ hs, Nat.zero_add]
  refine countP_key_dedupNew keyId ?_ hex
  intro hmem
  rcases Finset.mem_image.mp hmem with ⟨a, ha, haa⟩
  exact hnot (Option.some_inj.mp haa ▸ ha)

theorem aggregate_countP_pair (rf lf : List Tsv) (st : AggState)
    {a t : String} (ha : a ≠ "") (ht : t ≠ "")
    (hnot : (a, t) ∉ load_existing_error_entries st.errlog)
    (hex : ∃ r ∈ logRows lf, keyIdRun r = (some a, some t)) :
    ((aggregate rf lf st).errlog.getD []).countP
      (fun r => decide (keyIdRun r = (some a, some t))) = 1 := by
  rw [show (aggregate rf lf st).errlog.getD [] =
      st.errlog.getD [] ++ (error_new lf st).map writtenRow from rfl,
    List.countP_append]
  have h0 : (st.errlog.getD []).countP
      (fun r => decide (keyIdRun r = (some a, some t))) = 0 := by
    cases hsb : st.errlog with
    | none => rfl
    | some e0 =>
      rw [hsb] at hnot
      rw [List.countP_eq_zero]
      intro r hr
      simp only [decide_eq_true_eq]
      intro hk
      rw [keyIdRun, Prod.mk.injEq] at hk
      exact hnot (mem_load_existing_error_entries.mpr
        ⟨r, hr, hk.1, hk.2, ha, ht⟩)
  rw [h0, countP_pair_writtenRow_map _ ha ht, Nat.zero_add]
  refine countP_key_dedupNew keyIdRun ?_ hex
  intro hmem
  rcases Finset.mem_image.mp hmem with ⟨⟨a0, t0⟩, hmem0, heq0⟩
  rw [Prod.mk.injEq] at heq0
  obtain rfl : a0 = a := Option.some_inj.mp heq0.1
  obtain rfl : t0 = t := Option.some_inj.mp heq0.2
  exact hnot hmem0

/-- C5: within one aggregation pass, an id carried by any number of success
fragments and not yet in the success log yields exactly one success-log row;
an `(id, run_at)` pair carried by any number of outcome fragments and not yet
in the outcome log yields exactly one outcome-log row; and two outcome
fragments for the same id with different timestamps each yield their own
row. -/
theorem aggregate_dedup_within_pass (rf lf : List Tsv) (st : AggState) :
    (∀ s : String, s ≠ "" → s ∉ load_existing_ids st.busco →
      (∃ r ∈ resultRows rf, keyId r = some s) →
      ((aggregate rf lf st).busco.getD []).countP
        (fun r => decide (keyId r = some s)) = 1) ∧
    (∀ a t : String, a ≠ "" → t ≠ "" →
      (a, t) ∉ load_existing_error_entries st.errlog →
      (∃ r ∈ logRows lf, keyIdRun r = (some a, some t)) →
      ((aggregate rf lf st).errlog.getD []).countP
        (fun r => decide (keyIdRun r = (some a, some t))) = 1) ∧
    (∀ a t₁ t₂ : String, a ≠ "" → t₁ ≠ "" → t₂ ≠ "" → t₁ ≠ t₂ →
      (a, t₁) ∉ load_existing_error_entries st.errlog →
      (a, t₂) ∉ load_existing_error_entries st.errlog →
      (∃ r ∈ logRows lf, keyIdRun r = (some a, some t₁)) →
      (∃ r ∈ logRows lf, keyIdRun r = (some a, some t₂)) →
      ((aggregate rf lf st).errlog.getD []).countP
        (fun r => decide (keyIdRun r = (some a, some t₁))) = 1 ∧
      ((aggregate rf lf st).errlog.getD []).countP
        (fun r => decide (keyIdRun r = (some a, some t₂))) = 1) := by
  refine ⟨?_, ?_, ?_⟩
  · intro s hs hnot hex
    exact aggregate_countP_id rf lf st hs hnot hex
  · intro a t ha ht hnot hex
    exact aggregate_countP_pair rf lf st ha ht hnot hex
  · intro a t₁ t₂ ha ht1 ht2 hne hnot1 hnot2 hex1 hex2
    exact ⟨aggregate_countP_pair rf lf st ha ht1 hnot1 hex1,
      aggregate_countP_pair rf lf st ha ht2 hnot2 hex2⟩

/-- C5 witness: two success fragments with the same id give one row; two
outcome fragments with the same id at distinct timestamps give one row
each. -/
theorem aggregate_dedup_within_pass_witness :
    ((aggregate
        [BUSCO_HEADER :: [["x", "l1", "1", "2", "3", "4", "5", "6"]],
         BUSCO_HEADER :: [["x", "l2", "9", "8", "7", "6", "5", "4"]]]
        [LOG_HEADER :: [["x", "t1", "fail", "run_busco"]],
         LOG_HEADER :: [["x", "t2", "fail", "extract_proteins"]]]
        ⟨none, none⟩).busco.getD []).countP
      (fun r => decide (keyId r = some "x")) = 1 ∧
    ((aggregate
        [BUSCO_HEADER :: [["x", "l1", "1", "2", "3", "4", "5", "6"]],
         BUSCO_HEADER :: [["x", "l2", "9", "8", "7", "6", "5", "4"]]]
        [LOG_HEADER :: [["x", "t1", "fail", "run_busco"]],
         LOG_HEADER :: [["x", "t2", "fail", "extract_proteins"]]]
        ⟨none, none⟩).errlog.getD []).countP
      (fun r => decide (keyIdRun r = (some "x", some "t1"))) = 1 ∧
    ((aggregate
        [BUSCO_HEADER :: [["x", "l1", "1", "2", "3", "4", "5", "6"]],
         BUSCO_HEADER :: [["x", "l2", "9", "8", "7", "6", "5", "4"]]]
        [LOG_HEADER :: [["x", "t1", "fail", "run_busco"]],
         LOG_HEADER :: [["x", "t2", "fail", "extract_proteins"]]]
        ⟨none, none⟩).errlog.getD []).countP
      (fun r => decide (keyIdRun r = (some "x", some "t2"))) = 1 := by
  have h := aggregate_dedup_within_pass
    [BUSCO_HEADER :: [["x", "l1", "1", "2", "3", "4", "5", "6"]],
     BUSCO_HEADER :: [["x", "l2", "9", "8", "7", "6", "5", "4"]]]
    [LOG_HEADER :: [["x", "t1", "fail", "run_busco"]],
     LOG_HEADER :: [["x", "t2", "fail", "extract_proteins"]]]
    ⟨none, none⟩
  refine ⟨h.1 "x" (by decide) (by decide)
      ⟨[("annotation_id", some "x"), ("lineage", some "l1"),
        ("busco_count", some "1"), ("complete", some "2"),
        ("single", some "3"), ("duplicated", some "4"),
        ("fragmented", some "5"), ("missing", some "6")], by decide, rfl⟩,
    ?_⟩
  have h3 := h.2.2 "x" "t1" "t2" (by decide) (by decide) (by decide)
    (by decide) (by decide) (by decide)
    ⟨[("annotation_id", some "x"), ("run_at", some "t1"),
      ("result", some "fail"), ("step", some "run_busco")], by decide, rfl⟩
    ⟨[("annotation_id", some "x"), ("run_at", some "t2"),
      ("result", some "fail"), ("step", some "extract_proteins")],
      by decide, rfl⟩
  exact h3

end BuscoTracker
